import Mathlib

/-
  Verification development for the LDAPDelegate module of
  Products.LDAPUserFolder (file src/Products/LDAPUserFolder/LDAPDelegate.py).

  The python source is embedded shallowly:
  * pure helpers (escape_dn_chars, _clean_rdn, _createConnectionString,
    addServer, the modify change-list construction) become Lean functions;
  * stateful code (connect, _connect, handle_referral, search, modify)
    becomes explicit state passing over a state record St holding the
    per-delegate connection cache, a fresh-object counter and an event
    trace recording the network calls and critical log lines;
  * python exceptions become an Except monad over the PyExc type;
  * external collaborators (the underlying directory client, the security
    manager, the text codec of the utils module and the DN parser of the
    ldap library) are oracle fields of a World record, so the theorems
    quantify over their behaviour.

  Strings from the python source are modelled as Lean String except in the
  RDN-escaping development, where List Char makes the induction direct;
  clean_rdn_str bridges the two.
-/

set_option maxHeartbeats 1000000

namespace LDAPDelegate

/-- Python exception values relevant to the delegate: the typed errors of the
underlying directory client library together with the python builtins the
source handles. KeyboardInterrupt and SystemExit collapse to interrupt,
any other exception type to other. -/
inductive PyExc where
  | serverDown
  | timeout
  | invalidCredentials
  | noSuchObject
  | referral (info : String)
  | partialResults
  | alreadyExists
  | sizeLimit
  | adminLimit
  | attributeError
  | connectError (msg : String)
  | interrupt
  | other (msg : String)
  deriving DecidableEq, Repr

/-- Stand-in for python str(e): a nonempty printable rendering of the
exception. The exact text of the underlying library messages is not
observable in the source beyond being interpolated into result strings. -/
def pyStr : PyExc → String
  | .serverDown => "SERVER_DOWN"
  | .timeout => "TIMEOUT"
  | .invalidCredentials => "INVALID_CREDENTIALS"
  | .noSuchObject => "NO_SUCH_OBJECT"
  | .referral info => "REFERRAL " ++ info
  | .partialResults => "PARTIAL_RESULTS"
  | .alreadyExists => "ALREADY_EXISTS"
  | .sizeLimit => "SIZELIMIT_EXCEEDED"
  | .adminLimit => "ADMINLIMIT_EXCEEDED"
  | .attributeError => "AttributeError"
  | .connectError msg => msg
  | .interrupt => "KeyboardInterrupt"
  | .other msg => msg

/-- Stand-in for python e.__class__.__name__, used by the modify handlers. -/
def excName : PyExc → String
  | .serverDown => "SERVER_DOWN"
  | .timeout => "TIMEOUT"
  | .invalidCredentials => "INVALID_CREDENTIALS"
  | .noSuchObject => "NO_SUCH_OBJECT"
  | .referral _ => "REFERRAL"
  | .partialResults => "PARTIAL_RESULTS"
  | .alreadyExists => "ALREADY_EXISTS"
  | .sizeLimit => "SIZELIMIT_EXCEEDED"
  | .adminLimit => "ADMINLIMIT_EXCEEDED"
  | .attributeError => "AttributeError"
  | .connectError _ => "CONNECT_ERROR"
  | .interrupt => "KeyboardInterrupt"
  | .other _ => "Exception"

/- ------------------------------------------------------------------ -/
/- DN / attribute codec: escape_dn_chars (python-ldap) and _clean_rdn  -/
/- ------------------------------------------------------------------ -/

/-- One python str.replace step of escape_dn_chars: every occurrence of the
single character c is replaced by a backslash followed by c. -/
def replaceEsc (c : Char) : List Char → List Char
  | [] => []
  | a :: rest =>
    if a = c then '\\' :: c :: replaceEsc c rest
    else a :: replaceEsc c rest

/-- The chain of str.replace calls of ldap.dn.escape_dn_chars, in source
order: backslash first, then the special characters, NUL last. -/
def escCore (s : List Char) : List Char :=
  replaceEsc '\x00' (replaceEsc '=' (replaceEsc ';' (replaceEsc '>'
    (replaceEsc '<' (replaceEsc '"' (replaceEsc '+' (replaceEsc ','
      (replaceEsc '\\' s))))))))

/-- The leading-character fix of escape_dn_chars: a leading hash mark or
space is escaped with a backslash. -/
def leadFix : List Char → List Char
  | [] => []
  | a :: rest =>
    if a = '#' ∨ a = ' ' then '\\' :: a :: rest else a :: rest

/-- The trailing-character fix of escape_dn_chars: a trailing space is
escaped with a backslash. -/
def trailFix (s : List Char) : List Char :=
  if s.getLast? = some ' ' then s.dropLast ++ ['\\', ' '] else s

/-- ldap.dn.escape_dn_chars from python-ldap, the RFC 2253 escaping routine
the source imports and applies to RDN values. -/
def escape_dn_chars (s : List Char) : List Char :=
  if s = [] then [] else trailFix (leadFix (escCore s))

/-- Python str.isspace characters stripped by str.lstrip(). -/
def pySpace (c : Char) : Bool :=
  c == ' ' || c == '\t' || c == '\n' || c == '\r' || c == '\x0b' || c == '\x0c'

/-- Python str.lstrip(): drop the leading whitespace characters. -/
def pyLstrip (s : List Char) : List Char :=
  s.dropWhile pySpace

/-- Python str.split on the single character equal sign, keeping all parts;
rdn.split with unpacking into two names succeeds exactly when this returns a
two-element list. -/
def splitEq : List Char → List (List Char)
  | [] => [[]]
  | c :: rest =>
    let r := splitEq rest
    if c = '=' then [] :: r else (c :: r.headD []) :: r.tail

/-- LDAPDelegate._clean_rdn: if the RDN already contains a backslash it is
returned unchanged; otherwise it is split on the equal signs, and when that
yields exactly a key and a value, the value is left-stripped and escaped;
any other split arity raises ValueError in python, which the source turns
into returning the input unchanged. -/
def clean_rdn (rdn : List Char) : List Char :=
  if '\\' ∈ rdn then rdn
  else
    match splitEq rdn with
    | [key, val] => key ++ '=' :: escape_dn_chars (pyLstrip val)
    | _ => rdn

/-- String-typed wrapper of clean_rdn used by the operation layer. -/
def clean_rdn_str (s : String) : String :=
  String.mk (clean_rdn s.toList)

/- Lemmas: an escaping pass that introduced no backslash did nothing. -/

theorem replaceEsc_eq_of_no_bs (c : Char) :
    ∀ s : List Char, '\\' ∉ replaceEsc c s → replaceEsc c s = s := by
  intro s
  induction s with
  | nil => intro _; rfl
  | cons a rest ih =>
    intro h
    by_cases hac : a = c
    · exfalso
      apply h
      simp [replaceEsc, hac]
    · simp only [replaceEsc, if_neg hac] at h ⊢
      have h2 : '\\' ∉ replaceEsc c rest := fun hm => h (List.mem_cons_of_mem _ hm)
      rw [ih h2]

theorem mem_replaceEsc {x c : Char} :
    ∀ {s : List Char}, x ∈ replaceEsc c s → x ∈ s ∨ x = '\\' := by
  intro s
  induction s with
  | nil => intro h; exact absurd h (List.not_mem_nil x)
  | cons a rest ih =>
    intro h
    by_cases hac : a = c
    · rw [replaceEsc, if_pos hac, List.mem_cons, List.mem_cons] at h
      rcases h with h | h | h
      · right; exact h
      · left; rw [List.mem_cons]; left; rw [h, hac]
      · rcases ih h with h2 | h2
        · left; exact List.mem_cons_of_mem _ h2
        · right; exact h2
    · rw [replaceEsc, if_neg hac, List.mem_cons] at h
      rcases h with h | h
      · left; rw [List.mem_cons]; left; exact h
      · rcases ih h with h2 | h2
        · left; exact List.mem_cons_of_mem _ h2
        · right; exact h2

theorem escCore_eq_of_no_bs (s : List Char) (h : '\\' ∉ escCore s) :
    escCore s = s := by
  unfold escCore at h ⊢
  have e9 := replaceEsc_eq_of_no_bs _ _ h
  rw [e9] at h ⊢
  have e8 := replaceEsc_eq_of_no_bs _ _ h
  rw [e8] at h ⊢
  have e7 := replaceEsc_eq_of_no_bs _ _ h
  rw [e7] at h ⊢
  have e6 := replaceEsc_eq_of_no_bs _ _ h
  rw [e6] at h ⊢
  have e5 := replaceEsc_eq_of_no_bs _ _ h
  rw [e5] at h ⊢
  have e4 := replaceEsc_eq_of_no_bs _ _ h
  rw [e4] at h ⊢
  have e3 := replaceEsc_eq_of_no_bs _ _ h
  rw [e3] at h ⊢
  have e2 := replaceEsc_eq_of_no_bs _ _ h
  rw [e2] at h ⊢
  exact replaceEsc_eq_of_no_bs _ _ h

theorem mem_escCore {x : Char} {s : List Char} (h : x ∈ escCore s) :
    x ∈ s ∨ x = '\\' := by
  unfold escCore at h
  rcases mem_replaceEsc h with h | h
  on_goal 2 => right; exact h
  rcases mem_replaceEsc h with h | h
  on_goal 2 => right; exact h
  rcases mem_replaceEsc h with h | h
  on_goal 2 => right; exact h
  rcases mem_replaceEsc h with h | h
  on_goal 2 => right; exact h
  rcases mem_replaceEsc h with h | h
  on_goal 2 => right; exact h
  rcases mem_replaceEsc h with h | h
  on_goal 2 => right; exact h
  rcases mem_replaceEsc h with h | h
  on_goal 2 => right; exact h
  rcases mem_replaceEsc h with h | h
  on_goal 2 => right; exact h
  rcases mem_replaceEsc h with h | h
  · left; exact h
  · right; exact h

theorem leadFix_eq_of_no_bs (s : List Char) (h : '\\' ∉ leadFix s) :
    leadFix s = s := by
  cases s with
  | nil => rfl
  | cons a rest =>
    by_cases ha : a = '#' ∨ a = ' '
    · exfalso; apply h; simp [leadFix, ha]
    · simp [leadFix, ha]

theorem mem_leadFix {x : Char} {s : List Char} (h : x ∈ leadFix s) :
    x ∈ s ∨ x = '\\' := by
  cases s with
  | nil => exact absurd h (List.not_mem_nil x)
  | cons a rest =>
    by_cases ha : a = '#' ∨ a = ' '
    · rw [leadFix, if_pos ha, List.mem_cons] at h
      rcases h with h | h
      · right; exact h
      · left; exact h
    · rw [leadFix, if_neg ha] at h
      left; exact h

theorem trailFix_eq_of_no_bs (s : List Char) (h : '\\' ∉ trailFix s) :
    trailFix s = s := by
  unfold trailFix at h ⊢
  by_cases hl : s.getLast? = some ' '
  · exfalso; apply h; simp [hl]
  · simp [hl]

theorem mem_trailFix {x : Char} {s : List Char} (h : x ∈ trailFix s) :
    x ∈ s ∨ x = '\\' := by
  unfold trailFix at h
  by_cases hl : s.getLast? = some ' '
  · rw [if_pos hl] at h
    rcases List.mem_append.mp h with h | h
    · left; exact (List.dropLast_sublist s).subset h
    · rw [List.mem_cons, List.mem_cons] at h
      rcases h with h | h | h
      · right; exact h
      · left
        obtain ⟨ys, hys⟩ := List.getLast?_eq_some_iff.mp hl
        rw [h, hys]
        exact List.mem_append.mpr (Or.inr (List.mem_cons_self _ _))
      · exact absurd h (List.not_mem_nil x)
  · rw [if_neg hl] at h; left; exact h

theorem escape_eq_of_no_bs (s : List Char) (h : '\\' ∉ escape_dn_chars s) :
    escape_dn_chars s = s := by
  unfold escape_dn_chars at h ⊢
  by_cases hs : s = []
  · simp [hs]
  · rw [if_neg hs] at h ⊢
    have e3 := trailFix_eq_of_no_bs _ h
    rw [e3] at h ⊢
    have e2 := leadFix_eq_of_no_bs _ h
    rw [e2] at h ⊢
    exact escCore_eq_of_no_bs _ h

theorem mem_escape {x : Char} {s : List Char} (h : x ∈ escape_dn_chars s) :
    x ∈ s ∨ x = '\\' := by
  unfold escape_dn_chars at h
  by_cases hs : s = []
  · rw [if_pos hs] at h; exact absurd h (List.not_mem_nil x)
  · rw [if_neg hs] at h
    rcases mem_trailFix h with h | h
    on_goal 2 => right; exact h
    rcases mem_leadFix h with h | h
    on_goal 2 => right; exact h
    rcases mem_escCore h with h | h
    · left; exact h
    · right; exact h

/- Lemmas about splitEq. -/

theorem splitEq_ne_nil (s : List Char) : splitEq s ≠ [] := by
  cases s with
  | nil => simp [splitEq]
  | cons c rest =>
    simp only [splitEq]
    by_cases hc : c = '='
    · simp [hc]
    · simp [hc]

theorem splitEq_no_eq (s : List Char) (h : '=' ∉ s) : splitEq s = [s] := by
  induction s with
  | nil => rfl
  | cons c rest ih =>
    have hc : c ≠ '=' := fun he => h (he ▸ List.mem_cons_self _ _)
    have hr : '=' ∉ rest := fun hm => h (List.mem_cons_of_mem _ hm)
    simp only [splitEq, ih hr, if_neg hc, List.headD_cons, List.tail_cons]

theorem splitEq_single_inv (s b : List Char) (h : splitEq s = [b]) :
    s = b ∧ '=' ∉ b := by
  induction s generalizing b with
  | nil =>
    simp only [splitEq] at h
    cases h
    exact ⟨rfl, List.not_mem_nil _⟩
  | cons c rest ih =>
    simp only [splitEq] at h
    cases hr : splitEq rest with
    | nil => exact absurd hr (splitEq_ne_nil rest)
    | cons p ps =>
      rw [hr] at h
      by_cases hc : c = '='
      · rw [if_pos hc] at h
        simp at h
      · rw [if_neg hc, List.headD_cons, List.tail_cons] at h
        cases ps with
        | nil =>
          have h1 : c :: p = b := by
            cases h; rfl
          obtain ⟨hp, hnp⟩ := ih p (by rw [hr])
          subst hp
          constructor
          · exact h1
          · rw [← h1]
            intro hm
            rw [List.mem_cons] at hm
            rcases hm with hm | hm
            · exact hc hm.symm
            · exact hnp hm
        | cons q qs => simp at h

theorem splitEq_pair (a b : List Char) (ha : '=' ∉ a) (hb : '=' ∉ b) :
    splitEq (a ++ '=' :: b) = [a, b] := by
  induction a with
  | nil =>
    simp [splitEq, splitEq_no_eq b hb]
  | cons c t ih =>
    have hc : c ≠ '=' := fun he => ha (he ▸ List.mem_cons_self _ _)
    have ht : '=' ∉ t := fun hm => ha (List.mem_cons_of_mem _ hm)
    simp only [List.cons_append, splitEq, List.append_eq, ih ht, if_neg hc,
      List.headD_cons, List.tail_cons]

theorem splitEq_pair_inv (s a b : List Char) (h : splitEq s = [a, b]) :
    s = a ++ '=' :: b ∧ '=' ∉ a ∧ '=' ∉ b := by
  induction s generalizing a b with
  | nil => simp [splitEq] at h
  | cons c rest ih =>
    simp only [splitEq] at h
    cases hr : splitEq rest with
    | nil => exact absurd hr (splitEq_ne_nil rest)
    | cons p ps =>
      rw [hr] at h
      by_cases hc : c = '='
      · rw [if_pos hc] at h
        have h1 : ([] : List Char) = a ∧ p = b ∧ ps = [] := by
          cases h; exact ⟨rfl, rfl, rfl⟩
        obtain ⟨ha, hb, hps⟩ := h1
        subst hps
        obtain ⟨hrb, hnb⟩ := splitEq_single_inv rest p (by rw [hr])
        constructor
        · rw [← ha, hc, ← hb, ← hrb]; rfl
        constructor
        · rw [← ha]; exact List.not_mem_nil _
        · rw [← hb]; exact hnb
      · rw [if_neg hc, List.headD_cons, List.tail_cons] at h
        have h1 : c :: p = a ∧ ps = [b] := by
          cases h; exact ⟨rfl, rfl⟩
        obtain ⟨ha, hps⟩ := h1
        obtain ⟨hrest, hna, hnb⟩ := ih p b (by rw [hr, hps])
        constructor
        · rw [← ha, hrest]; rfl
        constructor
        · rw [← ha]
          intro hm
          rw [List.mem_cons] at hm
          rcases hm with hm | hm
          · exact hc hm.symm
          · exact hna hm
        · exact hnb

theorem pyLstrip_idem (s : List Char) : pyLstrip (pyLstrip s) = pyLstrip s := by
  unfold pyLstrip
  induction s with
  | nil => rfl
  | cons a t ih =>
    by_cases h : pySpace a
    · simp only [List.dropWhile_cons, h, if_true]
      exact ih
    · simp only [List.dropWhile_cons, h, if_false, Bool.false_eq_true]

theorem mem_pyLstrip {x : Char} {s : List Char} (h : x ∈ pyLstrip s) : x ∈ s :=
  (List.dropWhile_sublist pySpace).subset h

/-- Helper: the escaping branch of clean_rdn, fully unfolded. -/
theorem clean_rdn_split (rdn key val : List Char)
    (hb : '\\' ∉ rdn) (hs : splitEq rdn = [key, val]) :
    clean_rdn rdn = key ++ '=' :: escape_dn_chars (pyLstrip val) := by
  unfold clean_rdn
  rw [if_neg hb, hs]

/-- Helper: clean_rdn is idempotent. -/
theorem clean_rdn_idem (x : List Char) : clean_rdn (clean_rdn x) = clean_rdn x := by
  by_cases hb : '\\' ∈ x
  · simp [clean_rdn, hb]
  · cases hs : splitEq x with
    | nil => exact absurd hs (splitEq_ne_nil x)
    | cons a l =>
      cases l with
      | nil =>
        have hx : clean_rdn x = x := by unfold clean_rdn; rw [if_neg hb, hs]
        rw [hx, hx]
      | cons b l2 =>
        cases l2 with
        | cons c l3 =>
          have hx : clean_rdn x = x := by unfold clean_rdn; rw [if_neg hb, hs]
          rw [hx, hx]
        | nil =>
          -- main case: splitEq x = [a, b]
          obtain ⟨hxab, hna, hnb⟩ := splitEq_pair_inv x a b hs
          have hy : clean_rdn x = a ++ '=' :: escape_dn_chars (pyLstrip b) :=
            clean_rdn_split x a b hb hs
          rw [hy]
          set E := escape_dn_chars (pyLstrip b) with hE
          by_cases hby : '\\' ∈ a ++ '=' :: E
          · simp [clean_rdn, hby]
          · have hbe : '\\' ∉ E := by
              intro hm
              exact hby (List.mem_append.mpr (Or.inr (List.mem_cons_of_mem _ hm)))
            have hEe : E = pyLstrip b := escape_eq_of_no_bs _ hbe
            have hnE : '=' ∉ E := by
              rw [hEe]
              intro hm
              exact hnb (mem_pyLstrip hm)
            have hsy : splitEq (a ++ '=' :: E) = [a, E] := splitEq_pair a E hna hnE
            rw [clean_rdn_split _ a E hby hsy]
            have h2 : escape_dn_chars (pyLstrip E) = E := by
              rw [hEe, pyLstrip_idem, ← hE]
              exact hEe
            rw [h2]

/- ------------------------------------------------------------------ -/
/- Server registry                                                     -/
/- ------------------------------------------------------------------ -/

/-- One entry of the server registry. The python source stores host and
port as whatever the caller passed and compares them through str(); the
model stores the str() images directly, which is observationally
equivalent because every use of host and port in the source (the
matching test of addServer and the interpolation in
_createConnectionString) goes through str(). -/
structure Server where
  host : String
  port : String
  protocol : String
  conn_timeout : Int
  op_timeout : Int
  deriving DecidableEq, Repr

/-- The matching identity of a registry entry: (host, port, protocol). -/
def serverKey (s : Server) : String × String × String :=
  (s.host, s.port, s.protocol)

/-- Protocol selection of addServer from the use_ssl flag. -/
def protocolOf (use_ssl : Int) : String :=
  if use_ssl = 2 then "ldapi" else if use_ssl = 1 then "ldaps" else "ldap"

/-- Port normalization of addServer: the ldapi branch overwrites the port
with 0 before the matching loop runs. -/
def normPort (use_ssl : Int) (port : String) : String :=
  if use_ssl = 2 then "0" else port

/-- The scan of LDAPDelegate.addServer: update the timeouts of the first
entry whose (host, port, protocol) matches, or append a new entry. -/
def addServerAux (host port protocol : String) (ct ot : Int) :
    List Server → List Server
  | [] => [⟨host, port, protocol, ct, ot⟩]
  | s :: rest =>
    if s.host = host ∧ s.port = port ∧ s.protocol = protocol then
      { s with conn_timeout := ct, op_timeout := ot } :: rest
    else s :: addServerAux host port protocol ct ot rest

/-- LDAPDelegate.addServer restricted to its registry effect (the cache
invalidation it also performs is modelled at the delegate level by
addServerOp below). -/
def addServer (servers : List Server) (host port : String) (use_ssl : Int)
    (conn_timeout op_timeout : Int) : List Server :=
  addServerAux host (normPort use_ssl port) (protocolOf use_ssl)
    conn_timeout op_timeout servers

/-- LDAPDelegate.deleteServers restricted to its registry effect: keep the
entries whose position is not listed. -/
def deleteServers (servers : List Server) (position_list : List Nat) :
    List Server :=
  ((List.range servers.length).zip servers).filterMap
    (fun p => if p.1 ∈ position_list then none else some p.2)

/-- LDAPDelegate._createConnectionString: ldapi URLs carry the host alone,
all other schemes host:port; LDAPUrl.initializeUrl renders
scheme://hostport. -/
def createConnectionString (s : Server) : String :=
  let hostport := if s.protocol = "ldapi" then s.host
                  else s.host ++ ":" ++ s.port
  s.protocol ++ "://" ++ hostport

/- ------------------------------------------------------------------ -/
/- Delegate configuration and the mutable state                        -/
/- ------------------------------------------------------------------ -/

/-- The persistent configuration of an LDAPDelegate instance, as set by
__init__ / edit. -/
structure Delegate where
  servers : List Server := []
  login_attr : String := ""
  rdn_attr : String := ""
  bind_dn : String := ""
  bind_pwd : String := ""
  binduid_usage : Int := 1
  read_only : Bool := false
  u_base : String := ""

/-- A live client object of the underlying library. The id distinguishes
distinct python objects (each c_factory call yields a fresh one); the
connection string is the URL the object was constructed from. -/
structure Conn where
  id : Nat
  connString : String
  deriving DecidableEq, Repr

/-- Observable events of one call tree: network calls made through a
client object, and the critical log lines of connect. -/
inductive Event where
  | bindE (cs dn pwd : String)
  | probeSearchE (cs : String)
  | searchE (cs base : String) (scope : Nat) (filter : String)
  | modrdnE (cs dn newRdn : String)
  | modifyE (cs dn : String)
  | logNoServers
  | logConnFail (cs : String)
  deriving DecidableEq, Repr

/-- True for the events that reach the network. -/
def Event.isNet : Event → Bool
  | .bindE _ _ _ => true
  | .probeSearchE _ => true
  | .searchE _ _ _ _ => true
  | .modrdnE _ _ _ => true
  | .modifyE _ _ => true
  | .logNoServers => false
  | .logConnFail _ => false

/-- The search_s events of a trace. -/
def searchEvents (evs : List Event) : List Event :=
  evs.filter fun e => match e with
    | .searchE _ _ _ _ => true
    | _ => false

/-- Mutable state threaded through the embedded operations: the entry of
the external resource cache under this delegates key, a counter providing
fresh python object identities, and the accumulated event trace.

Modelled from the spec: the resource cache collaborator (cache.py, not
part of the sources under verification) with get(key) returning the
connection or absent, getOrCreate(key, factory, args) creating through
the factory only when the key is absent, and remove(key); it is keyed by
the delegate token alone, so a single Option Conn per delegate. -/
structure St where
  cache : Option Conn := none
  nextId : Nat := 0
  events : List Event := []
  deriving DecidableEq, Repr

/-- Append one event to the trace. -/
def addEvent (st : St) (e : Event) : St :=
  { st with events := st.events ++ [e] }

/-- Raw attribute value as delivered by the client library: either a bare
string (left alone by the decoding loop) or a list of byte strings. -/
inductive RawVal where
  | str (s : String)
  | vals (vs : List String)
  deriving DecidableEq, Repr

/-- An entry of the raw result list of search_s: a proper record carrying
a dn and an attribute dictionary, or a referral stub whose second member
is not a dictionary (items() raises AttributeError on it). -/
inductive RawEntry where
  | record (dn : String) (attrs : List (String × RawVal))
  | stub
  deriving DecidableEq, Repr

/-- A processed record: attribute dictionary as an association list. -/
abbrev Rec := List (String × RawVal)

/-- The result dictionary of search: exception text, size, results. -/
structure SearchResult where
  exception : String
  size : Nat
  results : List Rec
  deriving DecidableEq, Repr

/-- Oracles for the external collaborators: the security manager, the
behaviour of the underlying client library per connection string, the
text codec of the utils module, the referral URL parser of the ldapurl
library and the DN parser of the ldap library. A field returning
Option PyExc models a call that either succeeds (none) or raises. -/
structure World where
  secUser : Option (String × String) := none
  bindRes : String → String → String → Option PyExc := fun _ _ _ => none
  probeRes : String → Option PyExc := fun _ => none
  searchRes : String → String → Nat → String → List String →
    Except PyExc (List RawEntry) := fun _ _ _ _ _ => .ok []
  partialRes : String → List RawEntry := fun _ => []
  modrdnRes : String → String → String → Option PyExc := fun _ _ _ => none
  modifyRes : String → String → Option PyExc := fun _ _ => none
  fromUtf8 : String → Option String := fun s => some s
  toUtf8 : String → String := fun s => s
  refUrl : String → Option String := fun _ => none
  binaryAttrs : List String := []
  explodeDn : String → List String := fun s => [s]

/- ------------------------------------------------------------------ -/
/- Connection manager                                                  -/
/- ------------------------------------------------------------------ -/

/-- The bind-identity resolution at the top of LDAPDelegate.connect: an
explicit bind_dn wins and an empty override password is replaced by the
sentinel tilde; otherwise the configured service account when
binduid_usage is 1; otherwise the logged-in LDAPUser credentials, blanked
when the password is missing or the undef marker; otherwise anonymous. -/
def resolveIdentity (d : Delegate) (w : World) (bind_dn bind_pwd : String) :
    String × String :=
  if bind_dn ≠ "" then
    (bind_dn, if bind_pwd = "" then "~" else bind_pwd)
  else if d.binduid_usage = 1 then
    (d.bind_dn, d.bind_pwd)
  else
    match w.secUser with
    | some (udn, upwd) =>
      if upwd = "" ∨ upwd = "undef" then ("", "") else (udn, upwd)
    | none => ("", "")

/-- The obtain-or-create step at the top of LDAPDelegate._connect: the
client is taken from (or created into) the keyed cache exactly when the
connection string is one of the registry strings, otherwise a fresh
uncached client is constructed. -/
def connClient (d : Delegate) (cs : String) (st : St) : Conn × St :=
  if cs ∈ d.servers.map createConnectionString then
    match st.cache with
    | some c => (c, st)
    | none =>
      let c : Conn := ⟨st.nextId, cs⟩
      (c, { st with cache := some c, nextId := st.nextId + 1 })
  else
    (⟨st.nextId, cs⟩, { st with nextId := st.nextId + 1 })

/-- LDAPDelegate._connect: obtain or create the client, configure it (the
set_option calls configure protocol version, referral chasing and
timeouts on the client object and are not observable through any claim),
then bind with the given credentials, letting a bind failure propagate. -/
def _connect (d : Delegate) (w : World) (cs udn upwd : String)
    (_conn_timeout _op_timeout : Int) (st : St) : Except PyExc Conn × St :=
  let p := connClient d cs st
  let st1 := addEvent p.2 (.bindE p.1.connString udn upwd)
  match w.bindRes p.1.connString udn upwd with
  | none => (.ok p.1, st1)
  | some e => (.error e, st1)

/-- The bind-identity resolution inside handle_referral: it never takes an
explicit override and, unlike connect, does not blank an undef password
(the AttributeError branch of the source covers the non-LDAPUser case). -/
def referralIdentity (d : Delegate) (w : World) : String × String :=
  if d.binduid_usage = 1 then (d.bind_dn, d.bind_pwd)
  else
    match w.secUser with
    | some (udn, upwd) => (udn, upwd)
    | none => ("", "")

/-- LDAPDelegate.handle_referral: the slicing of the info payload and the
isLDAPUrl / LDAPUrl.initializeUrl steps of the external ldapurl library
collapse into the refUrl oracle; a missing or malformed URL raises the
bad-referral CONNECT_ERROR; otherwise a connection is opened against the
referral target with the referral identity. -/
def handle_referral (d : Delegate) (w : World) (info : String) (st : St) :
    Except PyExc Conn × St :=
  match w.refUrl info with
  | some conn_str =>
    let idp := referralIdentity d w
    _connect d w conn_str idp.1 idp.2 5 (-1) st
  | none => (.error (.connectError "Bad referral"), st)

/-- The probe exceptions swallowed by connect before falling over:
AttributeError, SERVER_DOWN, NO_SUCH_OBJECT, TIMEOUT,
INVALID_CREDENTIALS. -/
def caughtProbe (e : PyExc) : Bool :=
  e = .attributeError || e = .serverDown || e = .noSuchObject ||
    e = .timeout || e = .invalidCredentials

/-- The failover exceptions swallowed inside the server loop of connect:
SERVER_DOWN, TIMEOUT, INVALID_CREDENTIALS. -/
def caughtLoop (e : PyExc) : Bool :=
  e = .serverDown || e = .timeout || e = .invalidCredentials

/-- The server loop of LDAPDelegate.connect, followed by the terminal
block: with no servers configured, log the no-servers critical line and
return None; otherwise log the failure line naming the last attempted
connection string and re-raise the last caught error. -/
def connectLoop (d : Delegate) (w : World) (udn upwd : String) :
    List Server → Option PyExc → String → St →
      Except PyExc (Option Conn) × St
  | [], e, lastCs, st =>
    if d.servers.isEmpty then
      (.ok none, addEvent st .logNoServers)
    else
      let st := addEvent st (.logConnFail lastCs)
      match e with
      | some err => (.error err, st)
      | none => (.ok none, st)
  | s :: rest, _e, _lastCs, st =>
    let cs := createConnectionString s
    let p := _connect d w cs udn upwd s.conn_timeout s.op_timeout st
    match p.1 with
    | .ok c => (.ok (some c), p.2)
    | .error err =>
      if caughtLoop err then connectLoop d w udn upwd rest (some err) cs p.2
      else (.error err, p.2)

/-- LDAPDelegate.connect: resolve the bind identity, probe the cached
connection with a real bind plus a trivial base search, return it when
alive; when the probe raises one of the swallowed errors (or no
connection is cached, which surfaces as AttributeError on None), walk the
server registry in order. -/
def connect (d : Delegate) (w : World) (bind_dn bind_pwd : String)
    (st : St) : Except PyExc (Option Conn) × St :=
  let idp := resolveIdentity d w bind_dn bind_pwd
  match st.cache with
  | none =>
    connectLoop d w idp.1 idp.2 d.servers none "" st
  | some c =>
    let st1 := addEvent st (.bindE c.connString idp.1 idp.2)
    match w.bindRes c.connString idp.1 idp.2 with
    | some e =>
      if caughtProbe e then connectLoop d w idp.1 idp.2 d.servers none "" st1
      else (.error e, st1)
    | none =>
      let st2 := addEvent st1 (.probeSearchE c.connString)
      match w.probeRes c.connString with
      | none => (.ok (some c), st2)
      | some e =>
        if caughtProbe e then connectLoop d w idp.1 idp.2 d.servers none "" st2
        else (.error e, st2)

/-- Delegate-level addServer including its cache invalidation
(removeResource on the connection key). -/
def addServerOp (d : Delegate) (st : St) (host port : String)
    (use_ssl : Int) (conn_timeout op_timeout : Int) : Delegate × St :=
  ({ d with servers :=
      (addServer d.servers host port use_ssl conn_timeout op_timeout) },
   { st with cache := none })

/-- Delegate-level deleteServers including its cache invalidation. -/
def deleteServersOp (d : Delegate) (st : St) (position_list : List Nat) :
    Delegate × St :=
  ({ d with servers := deleteServers d.servers position_list },
   { st with cache := none })

/- ------------------------------------------------------------------ -/
/- Operation layer: search                                             -/
/- ------------------------------------------------------------------ -/

/-- LDAPDelegate._clean_dn: explode the DN through the library parser and
clean every component, rejoining with commas. -/
def clean_dn (w : World) (dn : String) : String :=
  String.intercalate "," ((w.explodeDn dn).map clean_rdn_str)

/-- The in-place decoding loop over the values of one non-binary
attribute: values are converted left to right; the first failing
conversion raises inside the try block, leaving that value and every
later value untouched, and the exception is swallowed. -/
def convertValues (fromUtf8 : String → Option String) :
    List String → List String
  | [] => []
  | v :: rest =>
    match fromUtf8 v with
    | some t => t :: convertValues fromUtf8 rest
    | none => v :: rest

/-- Decoding of one attribute of a record: bare strings are skipped by
the isinstance test, binary attributes (matched on the lowercased name)
are left raw, every other value list runs through the decoding loop. -/
def processAttr (w : World) (kv : String × RawVal) : String × RawVal :=
  match kv.2 with
  | .str s => (kv.1, .str s)
  | .vals vs =>
    if kv.1.toLower ∈ w.binaryAttrs then (kv.1, .vals vs)
    else (kv.1, .vals (convertValues w.fromUtf8 vs))

/-- Python dict assignment rec_dict[k] = v on an association list. -/
def setKey (m : Rec) (k : String) (v : RawVal) : Rec :=
  if m.any (fun kv => kv.1 = k) then
    m.map (fun kv => if kv.1 = k then (k, v) else kv)
  else m ++ [(k, v)]

/-- Processing of one raw result entry inside the record loop of search:
stub entries (whose items() raises AttributeError) are skipped; for a
proper record every attribute is decoded, then the dn entry is stamped
with from_utf8 of the record dn, whose failure raises out of the loop. -/
def processEntry (w : World) : RawEntry → Except PyExc (Option Rec)
  | .stub => .ok none
  | .record dn attrs =>
    let attrs2 := attrs.map (processAttr w)
    match w.fromUtf8 dn with
    | some d2 => .ok (some (setKey attrs2 "dn" (.str d2)))
    | none => .error (.other "UnicodeDecodeError")

/-- The record loop of search: the results list and size grow together
record by record; an exception mid-loop keeps the records already
appended and carries the exception to the outer handlers. -/
def searchLoop (w : World) : List RawEntry → List Rec →
    List Rec × Option PyExc
  | [], acc => (acc, none)
  | e :: rest, acc =>
    match processEntry w e with
    | .ok none => searchLoop w rest acc
    | .ok (some r) => searchLoop w rest (acc ++ [r])
    | .error exc => (acc, some exc)

/-- The exception handlers at the bottom of search, applied to the result
dictionary as accumulated when the exception reached them: specific
messages for invalid credentials, missing object and the size limits, a
re-raise for process interrupts and str(e) for everything else. -/
def searchWrap (filter base : String) (acc : List Rec) :
    Option PyExc → Except PyExc SearchResult
  | none => .ok ⟨"", acc.length, acc⟩
  | some e =>
    match e with
    | .invalidCredentials =>
      .ok ⟨"Invalid authentication credentials", acc.length, acc⟩
    | .noSuchObject =>
      .ok ⟨"Cannot find " ++ filter ++ " under " ++ base, acc.length, acc⟩
    | .sizeLimit => .ok ⟨"Too many results for this query", acc.length, acc⟩
    | .adminLimit => .ok ⟨"Too many results for this query", acc.length, acc⟩
    | .interrupt => .error .interrupt
    | e => .ok ⟨pyStr e, acc.length, acc⟩

/-- The raw fetch step of search: one search_s on the connected client;
PARTIAL_RESULTS salvages the buffered partial result set; a REFERRAL is
resolved through handle_referral and the search re-issued exactly once
against the new client, where only PARTIAL_RESULTS is handled and any
further error (a second referral included) propagates to the outer
handlers. -/
def getRawRetry (w : World) (base : String) (scope : Nat)
    (filter : String) (attrs : List String) :
    Except PyExc Conn × St → Except PyExc (List RawEntry) × St
  | (.error e, st) => (.error e, st)
  | (.ok c2, st) =>
    let st := addEvent st (.searchE c2.connString base scope filter)
    match w.searchRes c2.connString base scope filter attrs with
    | .ok res => (.ok res, st)
    | .error .partialResults => (.ok (w.partialRes c2.connString), st)
    | .error e => (.error e, st)

def getRaw (d : Delegate) (w : World) (c : Conn)
    (base : String) (scope : Nat) (filter : String) (attrs : List String)
    (st : St) : Except PyExc (List RawEntry) × St :=
  let st := addEvent st (.searchE c.connString base scope filter)
  match w.searchRes c.connString base scope filter attrs with
  | .ok res => (.ok res, st)
  | .error .partialResults => (.ok (w.partialRes c.connString), st)
  | .error (.referral info) =>
    getRawRetry w base scope filter attrs (handle_referral d w info st)
  | .error e => (.error e, st)

/-- LDAPDelegate.search: convert the filter unless the caller opts out,
clean the base, connect, fetch the raw result set, decode every record,
and convert every failure into the exception field of the returned
result dictionary; only process interrupts escape. A None from connect
returns the cannot-connect message directly. -/
def searchRaw (w : World) (filter base : String) :
    Except PyExc (List RawEntry) × St → Except PyExc SearchResult × St
  | (.error e, st) => (searchWrap filter base [] (some e), st)
  | (.ok res, st) =>
    let p := searchLoop w res []
    (searchWrap filter base p.1 p.2, st)

def searchConn (d : Delegate) (w : World) (base : String) (scope : Nat)
    (filter : String) (attrs : List String) :
    Except PyExc (Option Conn) × St → Except PyExc SearchResult × St
  | (.error e, st) => (searchWrap filter base [] (some e), st)
  | (.ok none, st) => (.ok ⟨"Cannot connect to LDAP server", 0, []⟩, st)
  | (.ok (some c), st) =>
    searchRaw w filter base (getRaw d w c base scope filter attrs st)

def search (d : Delegate) (w : World) (base0 : String) (scope : Nat)
    (filter0 : String) (attrs : List String) (bind_dn bind_pwd : String)
    (convert_filter : Bool) (st : St) : Except PyExc SearchResult × St :=
  let filter := if convert_filter then w.toUtf8 filter0 else filter0
  let base := clean_dn w base0
  searchConn d w base scope filter attrs (connect d w bind_dn bind_pwd st)

/- ------------------------------------------------------------------ -/
/- Operation layer: modify                                             -/
/- ------------------------------------------------------------------ -/

/-- ldap.MOD_ADD. -/
def MOD_ADD : Int := 0

/-- ldap.MOD_DELETE. -/
def MOD_DELETE : Int := 1

/-- ldap.MOD_REPLACE. -/
def MOD_REPLACE : Int := 2

/-- ldap.SCOPE_BASE. -/
def SCOPE_BASE : Nat := 0

/-- One entry of the modify change list: operation type, attribute name,
and the values (python None for a delete). -/
abbrev Mod := Int × String × Option (List String)

/-- Python dict.get(key) on a record. -/
def recGet (m : Rec) (k : String) : Option RawVal :=
  (m.find? (fun kv => kv.1 = k)).map (fun kv => kv.2)

/-- Python dict.get(key, default) on a record. -/
def recGetD (m : Rec) (k : String) (dflt : RawVal) : RawVal :=
  (recGet m k).getD dflt

/-- Python key in dict on a record. -/
def hasKey (m : Rec) (k : String) : Bool :=
  m.any (fun kv => kv.1 = k)

/-- Python equality between a stored attribute value and a list of
strings: a bare string never equals a list. -/
def rawEqList : RawVal → List String → Bool
  | .str _, _ => false
  | .vals vs, l => vs = l

/-- Python attrs.get(key, default) on the attribute dictionary handed to
modify. -/
def assocGetD (attrs : List (String × List String)) (k : String)
    (dflt : List String) : List String :=
  ((attrs.find? (fun kv => kv.1 = k)).map (fun kv => kv.2)).getD dflt

/-- Python value[0] on a stored attribute value: indexing None raises
TypeError, an empty list or string raises IndexError, a bare string
yields its first character. -/
def pyFirst : Option RawVal → Except PyExc String
  | none => .error (.other "TypeError")
  | some (.vals []) => .error (.other "IndexError")
  | some (.vals (v :: _)) => .ok v
  | some (.str s) =>
    match s.toList with
    | [] => .error (.other "IndexError")
    | ch :: _ => .ok (String.mk [ch])

/-- The change-list construction of modify: binary-suffixed keys keep
their raw values and lose the suffix, others are utf8-encoded; without an
explicit mod_type a differing non-empty value becomes a REPLACE, an
empty value for a present attribute becomes a DELETE, everything else is
dropped; with an explicit mod_type every attribute becomes that
operation. -/
def buildModList (w : World) (cur : Rec) (mt : Option Int) :
    List (String × List String) → List Mod
  | [] => []
  | (key0, values0) :: rest =>
    let isBin := key0.endsWith ";binary"
    let key := if isBin then key0.dropRight 7 else key0
    let values := if isBin then values0 else values0.map w.toUtf8
    let entry : List Mod :=
      match mt with
      | some t => [(t, key, some values)]
      | none =>
        if rawEqList (recGetD cur key (.vals [""])) values = false ∧
            values ≠ [""] then
          [(MOD_REPLACE, key, some values)]
        else if hasKey cur key ∧ values = [""] then
          [(MOD_DELETE, key, none)]
        else []
    entry ++ buildModList w cur mt rest

/-- The tail of the modify try block: when the change list is nonempty
the attribute changes are applied against the (possibly renamed) DN,
otherwise only a debug line is logged. -/
def modifyFinish (w : World) (copt : Option Conn) (dn2 : String)
    (mod_list : List Mod) (st : St) : Except PyExc Unit × St :=
  if mod_list ≠ [] then
    match copt with
    | none => (.error .attributeError, st)
    | some c =>
      let st := addEvent st (.modifyE c.connString dn2)
      match w.modifyRes c.connString dn2 with
      | none => (.ok (), st)
      | some e => (.error e, st)
  else (.ok (), st)

/-- The body of the modify try block after connect: when the supplied
RDN value is non-empty and differs from the current one, rename first
and recompute the DN as the exploded old DN with its head replaced by
the new cleaned RDN, then apply the change list. -/
def modifyConn (d : Delegate) (w : World) (utf8_dn : String)
    (cur_rec : Rec) (mod_list : List Mod)
    (attrs : List (String × List String)) :
    Except PyExc (Option Conn) × St → Except PyExc Unit × St
  | (.error e, st) => (.error e, st)
  | (.ok copt, st) =>
    match assocGetD attrs d.rdn_attr [""] with
    | [] => (.error (.other "IndexError"), st)
    | new_rdn :: _ =>
      if new_rdn ≠ "" then
        match pyFirst (recGet cur_rec d.rdn_attr) with
        | .error e => (.error e, st)
        | .ok curV =>
          if new_rdn ≠ curV then
            match copt with
            | none => (.error .attributeError, st)
            | some c =>
              let newRdn :=
                clean_rdn_str (w.toUtf8 (d.rdn_attr ++ "=" ++ new_rdn))
              let st := addEvent st (.modrdnE c.connString utf8_dn newRdn)
              match w.modrdnRes c.connString utf8_dn newRdn with
              | some e => (.error e, st)
              | none =>
                match w.explodeDn utf8_dn with
                | [] => (.error (.other "IndexError"), st)
                | _ :: tl =>
                  modifyFinish w copt
                    (String.intercalate "," (newRdn :: tl)) mod_list st
          else modifyFinish w copt utf8_dn mod_list st
      else modifyFinish w copt utf8_dn mod_list st

/-- The body of the modify try block applied to the connect outcome. -/
def modifyCore (d : Delegate) (w : World) (utf8_dn : String)
    (cur_rec : Rec) (mod_list : List Mod)
    (attrs : List (String × List String)) (st : St) :
    Except PyExc Unit × St :=
  modifyConn d w utf8_dn cur_rec mod_list attrs (connect d w "" "" st)

/-- The exception handlers of modify, including the single referral
retry, which re-issues only modify_s and against the original
(uncleaned) dn. -/
def modifyWrap (d : Delegate) (w : World) (dn : String)
    (_mod_list : List Mod) (p : Except PyExc Unit × St) :
    Except PyExc String × St :=
  match p with
  | (.ok _, st) => (.ok "", st)
  | (.error e, st) =>
    match e with
    | .invalidCredentials =>
      (.ok ("INVALID_CREDENTIALS No permission to modify " ++ dn), st)
    | .referral info =>
      match handle_referral d w info st with
      | (.ok c2, st) =>
        let st := addEvent st (.modifyE c2.connString dn)
        match w.modifyRes c2.connString dn with
        | none => (.ok "", st)
        | some .invalidCredentials =>
          (.ok ("INVALID_CREDENTIALS No permission to modify " ++ dn), st)
        | some .interrupt => (.error .interrupt, st)
        | some e2 =>
          (.ok (excName e2 ++ " LDAPDelegate.modify: " ++ pyStr e2), st)
      | (.error .interrupt, st) => (.error .interrupt, st)
      | (.error he, st) =>
        match he with
        | .invalidCredentials =>
          (.ok ("INVALID_CREDENTIALS No permission to modify " ++ dn), st)
        | he => (.ok (excName he ++ " LDAPDelegate.modify: " ++ pyStr he), st)
    | .interrupt => (.error .interrupt, st)
    | e => (.ok (excName e ++ " LDAPDelegate.modify: " ++ pyStr e), st)

/-- The part of modify following the lookup search: propagate a search
failure, refuse an absent record, build the change list, then run the
try block through the handlers. -/
def modifyAfterSearch (d : Delegate) (w : World) (dn : String)
    (mod_type : Option Int) (attrs : List (String × List String))
    (utf8_dn : String) :
    Except PyExc SearchResult × St → Except PyExc String × St
  | (.error e, st) => (.error e, st)
  | (.ok res, st) =>
    if res.exception ≠ "" then (.ok res.exception, st)
    else if res.size = 0 then
      (.ok ("LDAPDelegate.modify: Cannot find dn " ++ dn), st)
    else
      match res.results with
      | [] => (.error (.other "IndexError"), st)
      | cur_rec :: _ =>
        let mod_list := buildModList w cur_rec mod_type attrs
        modifyWrap d w dn mod_list
          (modifyCore d w utf8_dn cur_rec mod_list attrs st)

/-- LDAPDelegate.modify: read-only guard, clean the DN, look the record
up with a base-scope search and propagate its failure, then run the try
block through the handlers. Only process interrupts escape. -/
def modify (d : Delegate) (w : World) (dn : String) (mod_type : Option Int)
    (attrs : List (String × List String)) (st : St) :
    Except PyExc String × St :=
  if d.read_only then
    (.ok "Running in read-only mode, modification is disabled", st)
  else
    let utf8_dn := clean_dn w (w.toUtf8 dn)
    modifyAfterSearch d w dn mod_type attrs utf8_dn
      (search d w utf8_dn SCOPE_BASE "(objectClass=*)" [] "" "" true st)

/- ------------------------------------------------------------------ -/
/- Lemmas about the connection manager                                 -/
/- ------------------------------------------------------------------ -/

theorem connClient_events (d : Delegate) (cs : String) (st : St) :
    (connClient d cs st).2.events = st.events := by
  unfold connClient
  by_cases hm : cs ∈ d.servers.map createConnectionString
  · rw [if_pos hm]
    cases st.cache <;> rfl
  · rw [if_neg hm]

theorem connClient_nextId_le (d : Delegate) (cs : String) (st : St) :
    st.nextId ≤ (connClient d cs st).2.nextId := by
  unfold connClient
  by_cases hm : cs ∈ d.servers.map createConnectionString
  · rw [if_pos hm]
    cases st.cache
    · exact Nat.le_succ _
    · exact Nat.le_refl _
  · rw [if_neg hm]
    exact Nat.le_succ _


theorem _connect_snd (d : Delegate) (w : World) (cs udn upwd : String)
    (ct ot : Int) (st : St) :
    (_connect d w cs udn upwd ct ot st).2 =
      addEvent (connClient d cs st).2
        (.bindE (connClient d cs st).1.connString udn upwd) := by
  simp only [_connect]
  split <;> rfl

theorem connectLoop_events (d : Delegate) (w : World) (udn upwd : String) :
    ∀ (servers : List Server) (e : Option PyExc) (lastCs : String) (st : St)
      (r : Except PyExc (Option Conn)) (st' : St),
      connectLoop d w udn upwd servers e lastCs st = (r, st') →
      ∃ t, st'.events = st.events ++ t ∧
        ∀ ev ∈ t, (∃ cs, ev = Event.bindE cs udn upwd) ∨
          ev = Event.logNoServers ∨ ∃ cs, ev = Event.logConnFail cs := by
  intro servers
  induction servers with
  | nil =>
    intro e lastCs st r st' h
    unfold connectLoop at h
    by_cases hemp : d.servers.isEmpty
    · rw [if_pos hemp] at h
      cases h
      refine ⟨[.logNoServers], rfl, ?_⟩
      intro ev hev
      rw [List.mem_singleton] at hev
      right; left; exact hev
    · rw [if_neg hemp] at h
      cases e with
      | some err =>
        cases h
        refine ⟨[.logConnFail lastCs], rfl, ?_⟩
        intro ev hev
        rw [List.mem_singleton] at hev
        right; right; exact ⟨lastCs, hev⟩
      | none =>
        cases h
        refine ⟨[.logConnFail lastCs], rfl, ?_⟩
        intro ev hev
        rw [List.mem_singleton] at hev
        right; right; exact ⟨lastCs, hev⟩
  | cons s rest ih =>
    intro e lastCs st r st' h
    simp only [connectLoop] at h
    have hsnd : ((_connect d w (createConnectionString s) udn upwd
        s.conn_timeout s.op_timeout st).2).events = st.events ++
        [Event.bindE (connClient d (createConnectionString s) st).1.connString
          udn upwd] := by
      rw [_connect_snd]
      simp [addEvent, connClient_events]
    split at h
    · cases h
      exact ⟨_, hsnd, by
        intro ev hm
        rw [List.mem_singleton] at hm
        left; exact ⟨_, hm⟩⟩
    · rename_i err _
      by_cases hcl : caughtLoop err
      · rw [if_pos hcl] at h
        obtain ⟨t2, ht2, hprop⟩ := ih _ _ _ _ _ h
        refine ⟨[Event.bindE (connClient d (createConnectionString s)
            st).1.connString udn upwd] ++ t2, ?_, ?_⟩
        · rw [ht2, hsnd, List.append_assoc]
        · intro ev hm
          rw [List.mem_append, List.mem_singleton] at hm
          rcases hm with hm | hm
          · left; exact ⟨_, hm⟩
          · exact hprop ev hm
      · rw [if_neg hcl] at h
        cases h
        exact ⟨_, hsnd, by
          intro ev hm
          rw [List.mem_singleton] at hm
          left; exact ⟨_, hm⟩⟩

theorem connect_events (d : Delegate) (w : World) (bdn bpwd : String)
    (st : St) (r : Except PyExc (Option Conn)) (st' : St)
    (h : connect d w bdn bpwd st = (r, st')) :
    ∃ t, st'.events = st.events ++ t ∧
      ∀ ev ∈ t,
        (∃ cs, ev = Event.bindE cs (resolveIdentity d w bdn bpwd).1
            (resolveIdentity d w bdn bpwd).2) ∨
        (∃ cs, ev = Event.probeSearchE cs) ∨ ev = Event.logNoServers ∨
        ∃ cs, ev = Event.logConnFail cs := by
  simp only [connect] at h
  split at h
  · -- cold cache: straight to the loop
    obtain ⟨t, ht, hprop⟩ := connectLoop_events d w _ _ _ _ _ _ _ _ h
    refine ⟨t, ht, ?_⟩
    intro ev hm
    rcases hprop ev hm with hm2 | hm2 | hm2
    · left; exact hm2
    · right; right; left; exact hm2
    · right; right; right; exact hm2
  · rename_i c heqc
    split at h
    · -- probe bind raised
      rename_i e heqe
      by_cases hcp : caughtProbe e
      · rw [if_pos hcp] at h
        obtain ⟨t, ht, hprop⟩ := connectLoop_events d w _ _ _ _ _ _ _ _ h
        refine ⟨[Event.bindE c.connString (resolveIdentity d w bdn bpwd).1
            (resolveIdentity d w bdn bpwd).2] ++ t, ?_, ?_⟩
        · rw [ht]; simp [addEvent]
        · intro ev hm
          rw [List.mem_append, List.mem_singleton] at hm
          rcases hm with hm | hm
          · left; exact ⟨_, hm⟩
          · rcases hprop ev hm with hm2 | hm2 | hm2
            · left; exact hm2
            · right; right; left; exact hm2
            · right; right; right; exact hm2
      · rw [if_neg hcp] at h
        cases h
        refine ⟨[Event.bindE c.connString (resolveIdentity d w bdn bpwd).1
            (resolveIdentity d w bdn bpwd).2], by simp [addEvent], ?_⟩
        intro ev hm
        rw [List.mem_singleton] at hm
        left; exact ⟨_, hm⟩
    · -- probe bind succeeded
      split at h
      · -- probe search succeeded: cached connection returned
        cases h
        refine ⟨[Event.bindE c.connString (resolveIdentity d w bdn bpwd).1
            (resolveIdentity d w bdn bpwd).2,
          Event.probeSearchE c.connString], by simp [addEvent], ?_⟩
        intro ev hm
        rw [List.mem_cons, List.mem_singleton] at hm
        rcases hm with hm | hm
        · left; exact ⟨_, hm⟩
        · right; left; exact ⟨_, hm⟩
      · -- probe search raised
        rename_i e heqe
        by_cases hcp : caughtProbe e
        · rw [if_pos hcp] at h
          obtain ⟨t, ht, hprop⟩ := connectLoop_events d w _ _ _ _ _ _ _ _ h
          refine ⟨[Event.bindE c.connString (resolveIdentity d w bdn bpwd).1
              (resolveIdentity d w bdn bpwd).2,
            Event.probeSearchE c.connString] ++ t, ?_, ?_⟩
          · rw [ht]; simp [addEvent]
          · intro ev hm
            rw [List.mem_append, List.mem_cons, List.mem_singleton] at hm
            rcases hm with (hm | hm) | hm
            · left; exact ⟨_, hm⟩
            · right; left; exact ⟨_, hm⟩
            · rcases hprop ev hm with hm2 | hm2 | hm2
              · left; exact hm2
              · right; right; left; exact hm2
              · right; right; right; exact hm2
        · rw [if_neg hcp] at h
          cases h
          refine ⟨[Event.bindE c.connString (resolveIdentity d w bdn bpwd).1
              (resolveIdentity d w bdn bpwd).2,
            Event.probeSearchE c.connString], by simp [addEvent], ?_⟩
          intro ev hm
          rw [List.mem_cons, List.mem_singleton] at hm
          rcases hm with hm | hm
          · left; exact ⟨_, hm⟩
          · right; left; exact ⟨_, hm⟩

theorem connect_searchEvents (d : Delegate) (w : World) (bdn bpwd : String)
    (st : St) (r : Except PyExc (Option Conn)) (st' : St)
    (h : connect d w bdn bpwd st = (r, st')) :
    searchEvents st'.events = searchEvents st.events := by
  obtain ⟨t, ht, hprop⟩ := connect_events d w bdn bpwd st r st' h
  rw [ht]
  unfold searchEvents
  rw [List.filter_append]
  have hnil : List.filter (fun e => match e with
      | Event.searchE _ _ _ _ => true
      | _ => false) t = [] := by
    rw [List.filter_eq_nil_iff]
    intro ev hm
    rcases hprop ev hm with ⟨cs, he⟩ | ⟨cs, he⟩ | he | ⟨cs, he⟩ <;>
      (rw [he]; simp)
  rw [hnil, List.append_nil]

/- ------------------------------------------------------------------ -/
/- Cache-consistency support: every operation that empties the         -/
/- registry also clears the cache, and nothing caches while the        -/
/- registry is empty, so a delegate with an empty registry always has  -/
/- an empty cache entry.                                               -/
/- ------------------------------------------------------------------ -/

theorem addServerOp_cache (d : Delegate) (st : St) (host port : String)
    (use_ssl : Int) (ct ot : Int) :
    (addServerOp d st host port use_ssl ct ot).2.cache = none := rfl

theorem deleteServersOp_cache (d : Delegate) (st : St)
    (position_list : List Nat) :
    (deleteServersOp d st position_list).2.cache = none := rfl

theorem connClient_cache_of_empty (d : Delegate) (cs : String) (st : St)
    (hs : d.servers = []) (hc : st.cache = none) :
    (connClient d cs st).2.cache = none := by
  unfold connClient
  rw [hs]
  simp [hc]

/- ------------------------------------------------------------------ -/
/- Registry lemmas for addServer                                       -/
/- ------------------------------------------------------------------ -/

theorem addServerAux_keys (h p pr : String) (ct ot : Int) :
    ∀ servers : List Server,
      (addServerAux h p pr ct ot servers).map serverKey =
        if servers.any (fun s => serverKey s = (h, p, pr)) then
          servers.map serverKey
        else servers.map serverKey ++ [(h, p, pr)] := by
  intro servers
  induction servers with
  | nil => simp [addServerAux, serverKey]
  | cons s rest ih =>
    have hiff : (serverKey s = (h, p, pr)) ↔
        (s.host = h ∧ s.port = p ∧ s.protocol = pr) := by
      simp [serverKey, Prod.ext_iff]
    by_cases hm : s.host = h ∧ s.port = p ∧ s.protocol = pr
    · have hk : serverKey s = (h, p, pr) := hiff.mpr hm
      have hany : ((s :: rest).any (fun s => serverKey s = (h, p, pr))) =
          true := by simp [hk]
      rw [hany, if_pos rfl]
      unfold addServerAux
      rw [if_pos hm]
      simp [serverKey]
    · have hk : ¬ serverKey s = (h, p, pr) := fun he => hm (hiff.mp he)
      have hstep : addServerAux h p pr ct ot (s :: rest) =
          s :: addServerAux h p pr ct ot rest := by
        simp only [addServerAux]
        rw [if_neg hm]
      have hcond : ((s :: rest).any (fun s => serverKey s = (h, p, pr))) =
          (rest.any (fun s => serverKey s = (h, p, pr))) := by
        simp [hk]
      rw [hstep, List.map_cons, ih, hcond]
      by_cases ha : rest.any (fun s => serverKey s = (h, p, pr)) = true
      · rw [ha]
        simp
      · rw [Bool.not_eq_true] at ha
        rw [ha]
        simp

theorem addServerAux_mem_update (h p pr : String) (ct ot : Int) :
    ∀ servers : List Server,
      servers.any (fun s => serverKey s = (h, p, pr)) = true →
      ∃ s ∈ servers, serverKey s = (h, p, pr) ∧
        ({ s with conn_timeout := ct, op_timeout := ot } : Server) ∈
          addServerAux h p pr ct ot servers := by
  intro servers
  induction servers with
  | nil => intro hany; simp at hany
  | cons s rest ih =>
    intro hany
    have hiff : (serverKey s = (h, p, pr)) ↔
        (s.host = h ∧ s.port = p ∧ s.protocol = pr) := by
      simp [serverKey, Prod.ext_iff]
    by_cases hm : s.host = h ∧ s.port = p ∧ s.protocol = pr
    · refine ⟨s, List.mem_cons_self _ _, hiff.mpr hm, ?_⟩
      unfold addServerAux
      rw [if_pos hm]
      exact List.mem_cons_self _ _
    · have hk : ¬ serverKey s = (h, p, pr) := fun he => hm (hiff.mp he)
      have hany2 : rest.any (fun s => serverKey s = (h, p, pr)) = true := by
        simp only [List.any_cons, Bool.or_eq_true] at hany
        rcases hany with hx | hx
        · exfalso; apply hk; simpa using hx
        · exact hx
      obtain ⟨s2, hmem, hkey, hupd⟩ := ih hany2
      refine ⟨s2, List.mem_cons_of_mem _ hmem, hkey, ?_⟩
      unfold addServerAux
      rw [if_neg hm]
      exact List.mem_cons_of_mem _ hupd

theorem any_key_iff (servers : List Server) (k : String × String × String) :
    servers.any (fun s => serverKey s = k) = true ↔
      ∃ s ∈ servers, serverKey s = k := by
  rw [List.any_eq_true]
  constructor
  · rintro ⟨s, hmem, hs⟩
    exact ⟨s, hmem, by simpa using hs⟩
  · rintro ⟨s, hmem, hs⟩
    exact ⟨s, hmem, by simpa using hs⟩

/-- C9: addServer on an already-present (host, port, transport) triple
updates the timeouts of that entry in place without appending, so the
registry keeps its length and its key list; and every addServer call
preserves the no-duplicate-keys invariant. -/
theorem c9_addServer_dedup :
    (∀ (servers : List Server) (host port : String) (use_ssl : Int)
        (ct ot : Int),
      (∃ s ∈ servers,
        serverKey s = (host, normPort use_ssl port, protocolOf use_ssl)) →
      (addServer servers host port use_ssl ct ot).length = servers.length ∧
      (addServer servers host port use_ssl ct ot).map serverKey =
        servers.map serverKey ∧
      ∃ s ∈ servers,
        serverKey s = (host, normPort use_ssl port, protocolOf use_ssl) ∧
        ({ s with conn_timeout := ct, op_timeout := ot } : Server) ∈
          addServer servers host port use_ssl ct ot)
    ∧ ∀ (servers : List Server) (host port : String) (use_ssl : Int)
        (ct ot : Int),
        (servers.map serverKey).Nodup →
        ((addServer servers host port use_ssl ct ot).map serverKey).Nodup := by
  constructor
  · intro servers host port use_ssl ct ot hex
    have hany := (any_key_iff servers _).mpr hex
    have hkeys := addServerAux_keys host (normPort use_ssl port)
      (protocolOf use_ssl) ct ot servers
    rw [hany, if_pos rfl] at hkeys
    refine ⟨?_, hkeys, ?_⟩
    · have := congrArg List.length hkeys
      simpa using this
    · exact addServerAux_mem_update host (normPort use_ssl port)
        (protocolOf use_ssl) ct ot servers hany
  · intro servers host port use_ssl ct ot hnd
    have hkeys := addServerAux_keys host (normPort use_ssl port)
      (protocolOf use_ssl) ct ot servers
    by_cases hany : servers.any (fun s => serverKey s =
        (host, normPort use_ssl port, protocolOf use_ssl)) = true
    · rw [hany, if_pos rfl] at hkeys
      unfold addServer
      rw [hkeys]
      exact hnd
    · rw [Bool.not_eq_true] at hany
      rw [hany] at hkeys
      simp only [Bool.false_eq_true, if_false] at hkeys
      unfold addServer
      rw [hkeys]
      rw [List.nodup_append]
      refine ⟨hnd, List.nodup_singleton _, ?_⟩
      intro k hk1 hk2
      rw [List.mem_singleton] at hk2
      subst hk2
      rw [List.mem_map] at hk1
      obtain ⟨s, hmem, hkey⟩ := hk1
      have : servers.any (fun s => serverKey s =
          (host, normPort use_ssl port, protocolOf use_ssl)) = true :=
        (any_key_iff servers _).mpr ⟨s, hmem, hkey⟩
      rw [hany] at this
      exact absurd this (by simp)

/-- C9 witness: a registry holding exactly the entry (h, 389, ldap) is
updated in place by a matching addServer call. -/
theorem c9_witness :
    (addServer [⟨"h", "389", "ldap", -1, -1⟩] "h" "389" 0 5 7).length = 1 ∧
    ((([⟨"h", "389", "ldap", -1, -1⟩] : List Server).map serverKey).Nodup →
      ((addServer [⟨"h", "389", "ldap", -1, -1⟩] "h" "389" 0 5 7).map
        serverKey).Nodup) :=
  ⟨(c9_addServer_dedup.1 [⟨"h", "389", "ldap", -1, -1⟩] "h" "389" 0 5 7
      (by decide)).1,
   c9_addServer_dedup.2 [⟨"h", "389", "ldap", -1, -1⟩] "h" "389" 0 5 7⟩

/-- C1: with an empty server registry (whose reachable states always have
an empty cache entry, by addServerOp_cache, deleteServersOp_cache and
connClient_cache_of_empty), connect logs the no-servers configuration
error and returns the no-session failure value None to its caller without
raising, and the only event of the call is that critical log line, which
is not a network event: no network attempt is made. -/
theorem c1_empty_registry_config_error :
    ∀ (d : Delegate) (w : World) (bind_dn bind_pwd : String) (st : St),
      d.servers = [] → st.cache = none →
      connect d w bind_dn bind_pwd st =
        (.ok none, addEvent st .logNoServers) ∧
      Event.isNet .logNoServers = false := by
  intro d w bdn bpwd st hs hc
  refine ⟨?_, rfl⟩
  unfold connect
  rw [hc, hs]
  unfold connectLoop
  rw [if_pos (by rw [hs]; rfl)]

/-- C1 witness: a concrete fresh delegate with no servers. -/
theorem c1_witness :
    connect {} {} "" "" {} = (.ok none, addEvent {} .logNoServers) ∧
    Event.isNet .logNoServers = false :=
  c1_empty_registry_config_error {} {} "" "" {} rfl rfl

/-- C6: the obtain-or-create step of _connect leaves the client in the
keyed cache exactly when its connection string is one of the strings
built from the configured registry (the freshness hypothesis states that
a cached object is an earlier python object than the next to be
created); the bind performed afterwards never changes the cache; and a
connection opened by handle_referral for a referral target outside the
configured set leaves the cache untouched, hence is never cached. -/
theorem c6_cache_only_registry_strings :
    (∀ (d : Delegate) (cs : String) (st : St),
      (∀ c0, st.cache = some c0 → c0.id < st.nextId) →
      ((connClient d cs st).2.cache = some (connClient d cs st).1 ↔
        cs ∈ d.servers.map createConnectionString))
    ∧ (∀ (d : Delegate) (w : World) (cs udn upwd : String) (ct ot : Int)
        (st : St),
        (_connect d w cs udn upwd ct ot st).2.cache =
          (connClient d cs st).2.cache)
    ∧ ∀ (d : Delegate) (w : World) (info : String) (st : St) (rcs : String),
        w.refUrl info = some rcs →
        rcs ∉ d.servers.map createConnectionString →
        (handle_referral d w info st).2.cache = st.cache := by
  refine ⟨?_, ?_, ?_⟩
  · intro d cs st hfresh
    unfold connClient
    by_cases hm : cs ∈ d.servers.map createConnectionString
    · rw [if_pos hm]
      cases hc : st.cache with
      | some c =>
        rw [hc]
        simp [hm]
      | none =>
        simp [hm]
    · rw [if_neg hm]
      exact ⟨fun he => absurd (hfresh _ he) (lt_irrefl _),
        fun hin => absurd hin hm⟩
  · intro d w cs udn upwd ct ot st
    rw [_connect_snd]
    rfl
  · intro d w info st rcs href hout
    unfold handle_referral
    rw [href]
    rw [_connect_snd]
    show (connClient d rcs st).2.cache = st.cache
    unfold connClient
    rw [if_neg hout]

/-- C6 witness: with an empty cache and a one-server registry, the client
for the configured string is cached, and a referral connection to an
outside target leaves the cache empty. -/
theorem c6_witness :
    ((connClient { servers := [⟨"h", "389", "ldap", -1, -1⟩] }
        "ldap://h:389" {}).2.cache =
      some (connClient { servers := [⟨"h", "389", "ldap", -1, -1⟩] }
        "ldap://h:389" {}).1 ↔
      "ldap://h:389" ∈
        ([⟨"h", "389", "ldap", -1, -1⟩] : List Server).map
          createConnectionString) ∧
    (handle_referral { servers := [⟨"h", "389", "ldap", -1, -1⟩] }
        { refUrl := fun _ => some "ldap://other:389" } "x" {}).2.cache =
      ({} : St).cache :=
  ⟨c6_cache_only_registry_strings.1
      { servers := [⟨"h", "389", "ldap", -1, -1⟩] } "ldap://h:389" {}
      (by intro c0 hc; cases hc),
   c6_cache_only_registry_strings.2.2
      { servers := [⟨"h", "389", "ldap", -1, -1⟩] }
      { refUrl := fun _ => some "ldap://other:389" } "x" {} "ldap://other:389"
      rfl (by decide)⟩

/-- C8 counterexample: the escaping applied by the first cleaning is not
exactly the RFC 2253 escaping of the value part. For the RDN cn= a the
value part is the string space-a, whose escape_dn_chars image escapes the
leading space, yet clean_rdn left-strips the value before escaping and
returns cn=a. -/
theorem c8_cex_value_lstripped :
    clean_rdn ("cn= a".toList) ≠
      "cn".toList ++ '=' :: escape_dn_chars (" a".toList) ∧
    clean_rdn ("cn= a".toList) = "cn=a".toList ∧
    "cn".toList ++ '=' :: escape_dn_chars (" a".toList) =
      ("cn=" ++ "\\ a").toList := by
  refine ⟨by decide, by decide, by decide⟩

/-- C8 (amended): clean_rdn is idempotent on every input; an RDN already
containing the escape marker backslash is returned unchanged; and for a
backslash-free RDN splitting into exactly one key and one value, the
escaping applied on first cleaning is exactly the RFC 2253 escaping
(escape_dn_chars) of the left-stripped value part. -/
theorem c8_clean_rdn_idempotent :
    (∀ x : List Char, clean_rdn (clean_rdn x) = clean_rdn x)
    ∧ (∀ x : List Char, '\\' ∈ x → clean_rdn x = x)
    ∧ ∀ key val : List Char, '\\' ∉ key ++ '=' :: val → '=' ∉ key →
        '=' ∉ val →
        clean_rdn (key ++ '=' :: val) =
          key ++ '=' :: escape_dn_chars (pyLstrip val) := by
  refine ⟨clean_rdn_idem, ?_, ?_⟩
  · intro x hx
    simp [clean_rdn, hx]
  · intro key val hb hk hv
    exact clean_rdn_split _ key val hb (splitEq_pair key val hk hv)

/-- C8 witness: idempotence at a value needing escapes, the escape-marker
guard, and the escaping equation at a concrete key and value. -/
theorem c8_witness :
    clean_rdn (clean_rdn ("cn=a+b".toList)) = clean_rdn ("cn=a+b".toList) ∧
    clean_rdn ("cn=a\\+b".toList) = "cn=a\\+b".toList ∧
    clean_rdn ("cn".toList ++ '=' :: " #x".toList) =
      "cn".toList ++ '=' :: escape_dn_chars (pyLstrip (" #x".toList)) :=
  ⟨c8_clean_rdn_idempotent.1 _,
   c8_clean_rdn_idempotent.2.1 _ (by decide),
   c8_clean_rdn_idempotent.2.2 "cn".toList " #x".toList (by decide)
     (by decide) (by decide)⟩

/-- C10: an explicit non-empty bind_dn override with an empty bind_pwd
resolves to the sentinel password tilde instead of the empty string, and
every bind performed by that connect call carries the override dn and the
sentinel, so the explicit bind never degrades into an empty-password
anonymous bind. -/
theorem c10_explicit_bind_sentinel :
    ∀ (d : Delegate) (w : World) (bind_dn : String) (st : St)
      (r : Except PyExc (Option Conn)) (st' : St),
      bind_dn ≠ "" →
      connect d w bind_dn "" st = (r, st') →
      resolveIdentity d w bind_dn "" = (bind_dn, "~") ∧ "~" ≠ "" ∧
      ∃ t, st'.events = st.events ++ t ∧
        ∀ cs dn pwd, Event.bindE cs dn pwd ∈ t → dn = bind_dn ∧ pwd = "~" := by
  intro d w bdn st r st' hb h
  have hid : resolveIdentity d w bdn "" = (bdn, "~") := by
    unfold resolveIdentity
    rw [if_pos hb]
    rfl
  refine ⟨hid, by decide, ?_⟩
  obtain ⟨t, ht, hprop⟩ := connect_events d w bdn "" st r st' h
  refine ⟨t, ht, ?_⟩
  intro cs dn pwd hm
  rcases hprop _ hm with ⟨cs2, he⟩ | ⟨cs2, he⟩ | he | ⟨cs2, he⟩
  · rw [hid] at he
    cases he
    exact ⟨rfl, rfl⟩
  · cases he
  · cases he
  · cases he

/-- C10 witness: a one-server world where the override bind is attempted;
the trace records the sentinel password. -/
theorem c10_witness :
    resolveIdentity { servers := [⟨"h", "389", "ldap", -1, -1⟩] } {}
      "cn=root,dc=x" "" = ("cn=root,dc=x", "~") :=
  (c10_explicit_bind_sentinel { servers := [⟨"h", "389", "ldap", -1, -1⟩] }
    {} "cn=root,dc=x" {} _ _ (by decide) rfl).1

/- ------------------------------------------------------------------ -/
/- Concrete fixtures for the failover bug                              -/
/- ------------------------------------------------------------------ -/

/-- Failing input for order-respecting failover: two servers, the first
down, the second reachable. -/
def dFailover : Delegate :=
  { servers := [⟨"h1", "389", "ldap", -1, -1⟩, ⟨"h2", "389", "ldap", -1, -1⟩] }

/-- World in which every bind against the first server raises SERVER_DOWN
and every bind against the second succeeds. -/
def wFailover : World :=
  { bindRes := fun cs _ _ =>
      if cs = "ldap://h2:389" then none else some .serverDown }

/-- C3 (code bug): with a cold cache, the first iteration of the failover
loop creates and caches the client for server one; the second iteration
asks the keyed cache again, which returns that same cached client
regardless of the requested connection string, so the bind of iteration
two is performed against server one again (see the repeated
bindE ldap://h1:389 in the trace) and connect raises SERVER_DOWN even
though the bind oracle accepts server two. The claimed behaviour -
connect succeeds bound via server two - does not occur. -/
theorem c3_failover_bug :
    connect dFailover wFailover "" "" {} =
      (.error .serverDown,
       { cache := some ⟨0, "ldap://h1:389"⟩, nextId := 1,
         events := [.bindE "ldap://h1:389" "" "", .bindE "ldap://h1:389" "" "",
                    .logConnFail "ldap://h2:389"] }) ∧
    wFailover.bindRes "ldap://h2:389" "" "" = none := by
  constructor
  · rfl
  · rfl

/- ------------------------------------------------------------------ -/
/- Search lemmas                                                       -/
/- ------------------------------------------------------------------ -/

theorem searchWrap_size (f b : String) (acc : List Rec) (o : Option PyExc)
    (r : SearchResult) (h : searchWrap f b acc o = .ok r) :
    r.size = r.results.length := by
  unfold searchWrap at h
  cases o with
  | none =>
    simp at h
    subst h
    rfl
  | some e => cases e <;> simp at h <;> subst h <;> rfl

theorem search_size (d : Delegate) (w : World) (base0 : String) (scope : Nat)
    (filter0 : String) (attrs : List String) (bdn bpwd : String)
    (cf : Bool) (st : St) (r : SearchResult) (st' : St)
    (h : search d w base0 scope filter0 attrs bdn bpwd cf st = (.ok r, st')) :
    r.size = r.results.length := by
  simp only [search, searchConn] at h
  split at h
  · rw [Prod.mk.injEq] at h
    exact searchWrap_size _ _ _ _ _ h.1
  · rw [Prod.mk.injEq] at h
    obtain ⟨h1, _⟩ := h
    cases h1
    rfl
  · simp only [searchRaw] at h
    split at h
    · rw [Prod.mk.injEq] at h
      exact searchWrap_size _ _ _ _ _ h.1
    · rw [Prod.mk.injEq] at h
      exact searchWrap_size _ _ _ _ _ h.1

/- ------------------------------------------------------------------ -/
/- Concrete fixtures for the search claims                             -/
/- ------------------------------------------------------------------ -/

/-- A state whose cache already holds a live connection, so connect
succeeds through the probe. -/
def stWarm : St := { cache := some ⟨0, "ldap://h:389"⟩, nextId := 1 }

/-- World for the search result-shape bug: the raw result set has two
records and the dn of the second one does not decode. -/
def wDecodeBug : World :=
  { searchRes := fun _ _ _ _ _ => .ok [.record "good" [], .record "BAD" []],
    fromUtf8 := fun s => if s = "BAD" then none else some s }

/-- C2 (code bug): at the failing input, the decode failure on the second
record is caught by the outer handlers after the first record was already
appended, so search returns with the error reported in the exception
field but with count 1 and one record - not count 0 and an empty record
list as the claim (and the class docstring of the source) state. The
failure never escapes search; it is reported in the result. -/
theorem c2_error_with_nonzero_count :
    (search {} wDecodeBug "dc=x" 0 "f" [] "" "" true stWarm).1 =
      .ok ⟨"UnicodeDecodeError", 1, [[("dn", RawVal.str "good")]]⟩ ∧
    "UnicodeDecodeError" ≠ "" ∧ (1 : Nat) ≠ 0 := by
  refine ⟨rfl, by decide, by decide⟩

/-- World for the decoding-scope counterexample: one record with one
non-binary attribute holding three values; the decoder fails on the
middle value and succeeds on both others. -/
def wValueSkip : World :=
  { searchRes := fun _ _ _ _ _ =>
      .ok [.record "d" [("x", .vals ["a", "b", "c"])]],
    fromUtf8 := fun s => if s = "b" then none else some ("U" ++ s) }

/-- C4 counterexample: the decode failure on value b leaves the later
value c raw as well, although its conversion succeeds (last conjunct),
refuting the claim that only the failing value stays in raw form and
every other value of the attribute is converted. -/
theorem c4_cex_tail_left_raw :
    (search {} wValueSkip "dc=x" 0 "f" [] "" "" true stWarm).1 =
      .ok ⟨"", 1,
        [[("x", RawVal.vals ["Ua", "b", "c"]), ("dn", RawVal.str "Ud")]]⟩ ∧
    wValueSkip.fromUtf8 "c" = some "Uc" := by
  refine ⟨rfl, rfl⟩

/-- C4 (amended): in the decoding loop of search, a conversion failure on
one value leaves that value and every later value of the attribute in
raw form while every earlier value is converted (first conjunct), and
the record whose dn decodes is still appended to the results, each
attribute processed independently of the failures in the others (second
conjunct). -/
theorem c4_decode_failure_scope :
    (∀ (f : String → Option String) (pre : List String) (v : String)
        (suf : List String),
      (∀ x ∈ pre, f x ≠ none) → f v = none →
      convertValues f (pre ++ v :: suf) =
        pre.map (fun x => (f x).getD x) ++ v :: suf)
    ∧ ∀ (w : World) (dn : String) (attrs : List (String × RawVal))
        (rest : List RawEntry) (acc : List Rec) (d2 : String),
        w.fromUtf8 dn = some d2 →
        searchLoop w (.record dn attrs :: rest) acc =
          searchLoop w rest
            (acc ++ [setKey (attrs.map (processAttr w)) "dn" (.str d2)]) := by
  constructor
  · intro f pre v suf hpre hv
    induction pre with
    | nil =>
      simp only [List.nil_append, List.map_nil]
      unfold convertValues
      rw [hv]
    | cons x xs ih =>
      have hx : f x ≠ none := hpre x (List.mem_cons_self _ _)
      cases hfx : f x with
      | none => exact absurd hfx hx
      | some t =>
        simp only [List.cons_append, List.map_cons]
        unfold convertValues
        rw [hfx]
        rw [ih (fun y hy => hpre y (List.mem_cons_of_mem _ hy))]
        rfl
  · intro w dn attrs rest acc d2 hdn
    simp only [searchLoop, processEntry, hdn]

/-- C4 witness: the amended decoding property at a concrete decoder that
fails on the middle value. -/
theorem c4_witness :
    convertValues (fun s => if s = "b" then none else some ("U" ++ s))
        (["a"] ++ "b" :: ["c"]) =
      (["a"].map (fun x =>
        ((fun s => if s = "b" then none else some ("U" ++ s)) x).getD x)) ++
        "b" :: ["c"] :=
  c4_decode_failure_scope.1 (fun s => if s = "b" then none else some ("U" ++ s))
    ["a"] "b" ["c"] (by decide) (by decide)

/- ------------------------------------------------------------------ -/
/- Referral behaviour of search                                        -/
/- ------------------------------------------------------------------ -/

theorem getRaw_second_referral (d : Delegate) (w : World) (c0 : Conn)
    (base : String) (scope : Nat) (flt : String) (attrs : List String)
    (st : St) (info rcs info2 : String)
    (h2 : w.searchRes c0.connString base scope flt attrs =
      .error (.referral info))
    (h3 : w.refUrl info = some rcs)
    (h4 : rcs ∉ d.servers.map createConnectionString)
    (h5 : w.bindRes rcs (referralIdentity d w).1 (referralIdentity d w).2 =
      none)
    (h6 : w.searchRes rcs base scope flt attrs = .error (.referral info2)) :
    ∃ stF, getRaw d w c0 base scope flt attrs st =
        (.error (.referral info2), stF) ∧
      stF.events = st.events ++ [.searchE c0.connString base scope flt,
        .bindE rcs (referralIdentity d w).1 (referralIdentity d w).2,
        .searchE rcs base scope flt] := by
  simp only [getRaw, addEvent, h2, handle_referral, h3, _connect, connClient]
  rw [if_neg h4]
  simp only [h5, getRawRetry, addEvent, h6]
  exact ⟨_, rfl, by simp⟩

theorem searchEvents_append (a b : List Event) :
    searchEvents (a ++ b) = searchEvents a ++ searchEvents b := by
  unfold searchEvents
  rw [List.filter_append]

/-- C5: when the first search_s raises a referral, search opens a
connection against the referral target and retries exactly once: the
trace gains exactly two search events, the second one against the
referral target; when that retry raises a referral again, it is not
followed - the second referral surfaces as an ordinary error in the
result (exception text of the referral, count 0, no records) and search
returns normally. -/
theorem c5_referral_single_retry :
    ∀ (d : Delegate) (w : World) (base0 : String) (scope : Nat)
      (filter0 : String) (attrs : List String) (bdn bpwd : String)
      (cf : Bool) (st st1 : St) (c0 : Conn) (info rcs info2 : String),
      connect d w bdn bpwd st = (.ok (some c0), st1) →
      w.searchRes c0.connString (clean_dn w base0) scope
        (if cf then w.toUtf8 filter0 else filter0) attrs =
        .error (.referral info) →
      w.refUrl info = some rcs →
      rcs ∉ d.servers.map createConnectionString →
      w.bindRes rcs (referralIdentity d w).1 (referralIdentity d w).2 =
        none →
      w.searchRes rcs (clean_dn w base0) scope
        (if cf then w.toUtf8 filter0 else filter0) attrs =
        .error (.referral info2) →
      ∃ stF, search d w base0 scope filter0 attrs bdn bpwd cf st =
          (.ok ⟨pyStr (.referral info2), 0, []⟩, stF) ∧
        searchEvents stF.events = searchEvents st.events ++
          [.searchE c0.connString (clean_dn w base0) scope
            (if cf then w.toUtf8 filter0 else filter0),
           .searchE rcs (clean_dn w base0) scope
            (if cf then w.toUtf8 filter0 else filter0)] := by
  intro d w base0 scope filter0 attrs bdn bpwd cf st st1 c0 info rcs info2
    hconn h2 h3 h4 h5 h6
  obtain ⟨stF, hgr, hev⟩ := getRaw_second_referral d w c0 (clean_dn w base0)
    scope (if cf then w.toUtf8 filter0 else filter0) attrs st1 info rcs info2
    h2 h3 h4 h5 h6
  refine ⟨stF, ?_, ?_⟩
  · simp only [search, hconn, searchConn, hgr, searchRaw, searchWrap]
    rfl
  · rw [hev, searchEvents_append,
      connect_searchEvents d w bdn bpwd st _ st1 hconn]
    rfl

/-- World for the C5 witness: the home server always answers a referral
to the referral target, which itself answers a second referral. -/
def wReferral : World :=
  { searchRes := fun cs _ _ _ _ =>
      if cs = "ldap://ref:389" then .error (.referral "i2")
      else .error (.referral "i1"),
    refUrl := fun _ => some "ldap://ref:389" }

/-- C5 witness: the single-retry property at the concrete referral world;
the trace shows exactly one search against the home server and one
against the referral target, and the second referral is reported in the
result. -/
theorem c5_witness :
    ∃ stF, search {} wReferral "dc=x" 0 "f" [] "" "" true stWarm =
        (.ok ⟨pyStr (.referral "i2"), 0, []⟩, stF) ∧
      searchEvents stF.events = searchEvents stWarm.events ++
        [.searchE "ldap://h:389" (clean_dn wReferral "dc=x") 0
          (if true then wReferral.toUtf8 "f" else "f"),
         .searchE "ldap://ref:389" (clean_dn wReferral "dc=x") 0
          (if true then wReferral.toUtf8 "f" else "f")] :=
  c5_referral_single_retry {} wReferral "dc=x" 0 "f" [] "" "" true stWarm
    { cache := some ⟨0, "ldap://h:389"⟩, nextId := 1,
      events := [.bindE "ldap://h:389" "" "", .probeSearchE "ldap://h:389"] }
    ⟨0, "ldap://h:389"⟩ "i1" "ldap://ref:389" "i2"
    rfl rfl rfl (by decide) rfl rfl

/-- C7: when modify is given attributes whose RDN-attribute value is
non-empty and differs from the current one, it issues the rename first -
the modrdn event precedes any modify event in the trace - and the DN
used for the subsequent attribute-change call (issued only when the
change list is nonempty) is the old cleaned DN with its first exploded
component replaced by the new cleaned RDN. -/
theorem c7_modify_rename_order :
    ∀ (d : Delegate) (w : World) (dn : String)
      (attrs : List (String × List String)) (st st1 st2 : St)
      (res : SearchResult) (cur : Rec) (rest : List Rec) (c : Conn)
      (v : String) (vs : List String) (curV hd : String) (tl : List String),
      d.read_only = false →
      search d w (clean_dn w (w.toUtf8 dn)) SCOPE_BASE "(objectClass=*)" []
          "" "" true st = (.ok res, st1) →
      res.exception = "" →
      res.results = cur :: rest →
      connect d w "" "" st1 = (.ok (some c), st2) →
      assocGetD attrs d.rdn_attr [""] = v :: vs →
      v ≠ "" →
      pyFirst (recGet cur d.rdn_attr) = .ok curV →
      v ≠ curV →
      w.modrdnRes c.connString (clean_dn w (w.toUtf8 dn))
        (clean_rdn_str (w.toUtf8 (d.rdn_attr ++ "=" ++ v))) = none →
      w.explodeDn (clean_dn w (w.toUtf8 dn)) = hd :: tl →
      w.modifyRes c.connString (String.intercalate ","
        (clean_rdn_str (w.toUtf8 (d.rdn_attr ++ "=" ++ v)) :: tl)) = none →
      modify d w dn none attrs st =
        (.ok "", { st2 with events := st2.events ++
          [.modrdnE c.connString (clean_dn w (w.toUtf8 dn))
            (clean_rdn_str (w.toUtf8 (d.rdn_attr ++ "=" ++ v)))] ++
          (if buildModList w cur none attrs ≠ [] then
            [.modifyE c.connString (String.intercalate ","
              (clean_rdn_str (w.toUtf8 (d.rdn_attr ++ "=" ++ v)) :: tl))]
          else []) }) := by
  intro d w dn attrs st st1 st2 res cur rest c v vs curV hd tl
    hro hsearch hexc hres hconn hattr hv hcur hne hrdn hexp hmod
  have hsz : ¬ res.size = 0 := by
    rw [search_size _ _ _ _ _ _ _ _ _ _ _ _ hsearch, hres]
    simp
  unfold modify
  rw [hro]
  simp only [Bool.false_eq_true, if_false]
  rw [hsearch]
  simp only [modifyAfterSearch, hexc, ne_eq, not_true_eq_false, if_false,
    hsz, hres]
  simp only [modifyCore, hconn, modifyConn, hattr]
  rw [if_pos hv, hcur]
  simp only []
  rw [if_pos hne]
  simp only [addEvent, hrdn, hexp, modifyFinish]
  by_cases hml : buildModList w cur none attrs = []
  · rw [hml]
    simp [modifyWrap, addEvent]
  · rw [if_pos hml]
    rw [hmod]
    simp only [modifyWrap]
    rw [if_pos hml]

/-- World for the C7 witness: the lookup search finds one record whose
cn is old; the DN parser splits on commas. -/
def wModify : World :=
  { searchRes := fun _ _ _ _ _ =>
      .ok [.record "cn=old,dc=x" [("cn", .vals ["old"])]],
    explodeDn := fun s =>
      if s = "cn=old,dc=x" then ["cn=old", "dc=x"] else [s] }

/-- Delegate for the C7 witness: cn is the RDN attribute. -/
def dModify : Delegate := { rdn_attr := "cn" }

/-- State after the lookup search of the C7 witness. -/
def st1W : St :=
  { cache := some ⟨0, "ldap://h:389"⟩, nextId := 1,
    events := [.bindE "ldap://h:389" "" "", .probeSearchE "ldap://h:389",
      .searchE "ldap://h:389" "cn=old,dc=x" 0 "(objectClass=*)"] }

/-- State after the second connect of the C7 witness. -/
def st2W : St :=
  { cache := some ⟨0, "ldap://h:389"⟩, nextId := 1,
    events := [.bindE "ldap://h:389" "" "", .probeSearchE "ldap://h:389",
      .searchE "ldap://h:389" "cn=old,dc=x" 0 "(objectClass=*)",
      .bindE "ldap://h:389" "" "", .probeSearchE "ldap://h:389"] }

/-- The current record of the C7 witness. -/
def curW : Rec := [("cn", RawVal.vals ["old"]), ("dn", RawVal.str "cn=old,dc=x")]

/-- C7 witness: renaming cn from old to new issues the rename first and
then the attribute change against the recomputed DN cn=new,dc=x. -/
theorem c7_witness :
    modify dModify wModify "cn=old,dc=x" none [("cn", ["new"])] stWarm =
      (.ok "", { st2W with events := st2W.events ++
        [.modrdnE "ldap://h:389"
          (clean_dn wModify (wModify.toUtf8 "cn=old,dc=x"))
          (clean_rdn_str (wModify.toUtf8 (dModify.rdn_attr ++ "=" ++ "new")))]
        ++ (if buildModList wModify curW none [("cn", ["new"])] ≠ [] then
          [.modifyE "ldap://h:389" (String.intercalate ","
            (clean_rdn_str (wModify.toUtf8 (dModify.rdn_attr ++ "=" ++ "new"))
              :: ["dc=x"]))]
        else []) }) :=
  c7_modify_rename_order dModify wModify "cn=old,dc=x" [("cn", ["new"])]
    stWarm st1W st2W ⟨"", 1, [curW]⟩ curW [] ⟨0, "ldap://h:389"⟩ "new" []
    "old" "cn=old" ["dc=x"] (by rfl) (by rfl) (by rfl) (by rfl) (by rfl)
    (by rfl) (by decide) (by rfl) (by decide) (by rfl) (by rfl) (by rfl)
